import Mathlib

/-!
Verification of the pyfileinfo library (george-alisson/pyfileinfo)
against its natural-language specification.

The development shallowly embeds the relevant parts of
`pyfileinfo/fileinfo.py`, `pyfileinfo/helpers.py` and
`pyfileinfo/exceptions.py`:

* glob matching (`helpers.translate` composed with regex matching) becomes
  the executable matcher `globMatch`;
* a directory tree on disk becomes the inductive `FSTree`; `os.listdir`
  is the list of children in order, `os.path.isfile` / `os.path.isdir`
  are the constructor tags;
* the traversal generators `iter_files` (TopDirectoryOnly and
  AllDirectories branches) become `iter_files_top` and `iter_files_all`;
* the flat mutable filesystem touched by `delete` / `move_to` / `rename`
  becomes `FSState`, a finite association list from component paths to
  entries; the `os` / `shutil` primitives those methods call are embedded
  by their documented effects;
* Python exceptions become the `FIError` error codes threaded through
  `Except`.
-/

/-! ### Glob matching

`helpers.translate` turns a pattern into a regex: every `*` becomes `.*`,
every `?` becomes `.`, every other character is escaped to a literal, and
the result is anchored at both ends.  `globMatch` is that anchored
matching relation, decided directly on character lists. -/

def globMatch : List Char → List Char → Bool
  | [], [] => true
  | [], _ :: _ => false
  | '*' :: ps, [] => globMatch ps []
  | '*' :: ps, c :: s => globMatch ps (c :: s) || globMatch ('*' :: ps) s
  | '?' :: ps, _ :: s => globMatch ps s
  | '?' :: _, [] => false
  | p :: ps, c :: s => (p == c) && globMatch ps s
  | _ :: _, [] => false
termination_by p s => (s.length, p.length)
decreasing_by
  all_goals simp_wf
  all_goals omega

/-- The default search pattern of the traversal methods, the string `*`. -/
def starPat : List Char := ['*']

theorem globMatch_star (s : List Char) : globMatch starPat s = true := by
  induction s with
  | nil => simp [starPat, globMatch]
  | cons c s ih => simp only [starPat] at *; simp [globMatch, ih]

/-! ### The on-disk directory tree

A snapshot of the filesystem subtree below some directory.  Every node
carries the basename reported by `os.listdir` of its parent; files carry
the size reported by `os.path.getsize`. -/

inductive FSTree where
  | file (name : String) (size : Nat)
  | dir (name : String) (children : List FSTree)

/-- A filesystem path, as the list of its components. -/
abbrev FPath := List String

mutual

def FSTree.size : FSTree → Nat
  | .file _ _ => 1
  | .dir _ cs => 1 + FSTree.sizeL cs

def FSTree.sizeL : List FSTree → Nat
  | [] => 0
  | t :: ts => t.size + FSTree.sizeL ts

end

/-- One step of `os.listdir` with the files-only filter of `iter_files`:
for each child `name` in listing order, if
`os.path.isfile(next) and fnmatch.fnmatch(name, search)` then the
generator yields `FileInfo(next)`.  We record the yielded path together
with the tree node it denotes. -/
def listFilesMatch (search : List Char) (p : FPath) (cs : List FSTree) :
    List (FPath × FSTree) :=
  cs.filterMap fun t =>
    match t with
    | .file n sz =>
        if globMatch search n.data then some (p ++ [n], .file n sz) else none
    | .dir _ _ => none

/-- The subdirectories appended to the pending queue by one step of the
`AllDirectories` loop: every child that is a directory is enqueued,
whatever its name and whatever the search pattern. -/
def listSubdirs (p : FPath) (cs : List FSTree) : List (FPath × List FSTree) :=
  cs.filterMap fun t =>
    match t with
    | .dir n cs => some (p ++ [n], cs)
    | .file _ _ => none

def queueSize (q : List (FPath × List FSTree)) : Nat :=
  (q.map fun e => 1 + FSTree.sizeL e.2).sum

theorem queueSize_append (q r : List (FPath × List FSTree)) :
    queueSize (q ++ r) = queueSize q + queueSize r := by
  simp [queueSize]

theorem queueSize_listSubdirs_le (p : FPath) (cs : List FSTree) :
    queueSize (listSubdirs p cs) ≤ FSTree.sizeL cs := by
  induction cs with
  | nil => simp [listSubdirs, queueSize]
  | cons t ts ih =>
      cases t with
      | file n sz =>
          simp only [listSubdirs, List.filterMap_cons] at *
          simp only [FSTree.sizeL, FSTree.size]
          omega
      | dir n cs =>
          simp only [listSubdirs, List.filterMap_cons, queueSize,
            List.map_cons, List.sum_cons] at *
          simp only [FSTree.sizeL, FSTree.size]
          omega

/-- `FileInfo.iter_files` with `DirectorySearchOption.AllDirectories`
(fileinfo.py lines 652-664), embedded together with `get_files`, which
materializes the generator into a list.  The loop keeps an explicit
pending queue `pathlist` of directories; each round it pops the front
directory, lists it, yields the matching files and appends every
subdirectory to the queue.  The embedding additionally returns, as the
second component, the list of directories popped from the queue (the
directories the walk expands), in processing order. -/
def iter_files_all (search : List Char) :
    List (FPath × List FSTree) → List (FPath × FSTree) × List FPath
  | [] => ([], [])
  | (p, cs) :: q =>
      let r := iter_files_all search (q ++ listSubdirs p cs)
      (listFilesMatch search p cs ++ r.1, p :: r.2)
termination_by q => queueSize q
decreasing_by
  simp_wf
  have h := queueSize_listSubdirs_le p cs
  have h2 := queueSize_append q (listSubdirs p cs)
  simp only [queueSize, List.map_cons, List.sum_cons] at *
  omega

/-- `FileInfo.iter_files` with `DirectorySearchOption.TopDirectoryOnly`
(fileinfo.py lines 648-651): list the receiver directory once and yield
the matching files. -/
def iter_files_top (search : List Char) (p : FPath) (cs : List FSTree) :
    List (FPath × FSTree) :=
  listFilesMatch search p cs

mutual

/-- Specification-side collector: the files of the whole subtree whose
basename matches the pattern, each exactly once, in depth-first order. -/
def specFiles (search : List Char) (p : FPath) : FSTree → List (FPath × FSTree)
  | .file n sz =>
      if globMatch search n.data then [(p ++ [n], .file n sz)] else []
  | .dir n cs => specFilesL search (p ++ [n]) cs

def specFilesL (search : List Char) (p : FPath) :
    List FSTree → List (FPath × FSTree)
  | [] => []
  | t :: ts => specFiles search p t ++ specFilesL search p ts

end

mutual

/-- Specification-side collector: every descendant directory, each exactly
once, in depth-first order. -/
def specDirs (p : FPath) : FSTree → List FPath
  | .file _ _ => []
  | .dir n cs => (p ++ [n]) :: specDirsL (p ++ [n]) cs

def specDirsL (p : FPath) : List FSTree → List FPath
  | [] => []
  | t :: ts => specDirs p t ++ specDirsL p ts

end

open List in
theorem specFilesL_perm_step (search : List Char) (p : FPath) (cs : List FSTree) :
    specFilesL search p cs ~
      listFilesMatch search p cs ++
        (listSubdirs p cs).flatMap (fun e => specFilesL search e.1 e.2) := by
  induction cs with
  | nil => simp [specFilesL, listFilesMatch, listSubdirs]
  | cons t ts ih =>
      cases t with
      | file n sz =>
          simp only [specFilesL, specFiles, listFilesMatch, listSubdirs,
            List.filterMap_cons] at *
          by_cases h : globMatch search n.data
          · simp only [h, if_pos, List.cons_append]
            exact ih.cons _
          · simp only [h, if_neg, Bool.false_eq_true, not_false_iff]
            simpa using ih
      | dir n cs =>
          simp only [specFilesL, specFiles, listFilesMatch, listSubdirs,
            List.filterMap_cons, List.flatMap_cons] at *
          calc specFilesL search (p ++ [n]) cs ++ specFilesL search p ts
              ~ specFilesL search (p ++ [n]) cs ++
                  (listFilesMatch search p ts ++
                    (listSubdirs p ts).flatMap fun e => specFilesL search e.1 e.2) :=
                ih.append_left _
            _ ~ listFilesMatch search p ts ++
                  (specFilesL search (p ++ [n]) cs ++
                    (listSubdirs p ts).flatMap fun e => specFilesL search e.1 e.2) :=
                List.perm_append_comm_assoc _ _ _

open List in
theorem specDirsL_perm_step (p : FPath) (cs : List FSTree) :
    specDirsL p cs ~
      (listSubdirs p cs).flatMap (fun e => e.1 :: specDirsL e.1 e.2) := by
  induction cs with
  | nil => simp [specDirsL, listSubdirs]
  | cons t ts ih =>
      cases t with
      | file n sz =>
          simp only [specDirsL, specDirs, listSubdirs, List.filterMap_cons] at *
          simpa using ih
      | dir n cs =>
          simp only [specDirsL, specDirs, listSubdirs, List.filterMap_cons,
            List.flatMap_cons, List.cons_append] at *
          exact (ih.append_left _).cons _

open List in
theorem iter_files_all_perm (search : List Char) (q : List (FPath × List FSTree)) :
    (iter_files_all search q).1 ~
        q.flatMap (fun e => specFilesL search e.1 e.2) ∧
      (iter_files_all search q).2 ~
        q.flatMap (fun e => e.1 :: specDirsL e.1 e.2) := by
  generalize hn : queueSize q = n
  induction n using Nat.strong_induction_on generalizing q with
  | _ n ih =>
      cases q with
      | nil => simp [iter_files_all]
      | cons e q =>
          obtain ⟨p, cs⟩ := e
          have hlt : queueSize (q ++ listSubdirs p cs) < n := by
            have h1 := queueSize_listSubdirs_le p cs
            have h2 := queueSize_append q (listSubdirs p cs)
            subst hn
            simp only [queueSize, List.map_cons, List.sum_cons] at *
            omega
          obtain ⟨ihf, ihd⟩ := ih _ hlt (q ++ listSubdirs p cs) rfl
          rw [iter_files_all]
          constructor
          · calc listFilesMatch search p cs ++
                  (iter_files_all search (q ++ listSubdirs p cs)).1
                ~ listFilesMatch search p cs ++
                    ((q ++ listSubdirs p cs).flatMap fun e =>
                      specFilesL search e.1 e.2) := ihf.append_left _
              _ = listFilesMatch search p cs ++
                    ((q.flatMap fun e => specFilesL search e.1 e.2) ++
                      (listSubdirs p cs).flatMap fun e =>
                        specFilesL search e.1 e.2) := by
                  rw [List.flatMap_append]
              _ ~ listFilesMatch search p cs ++
                    (((listSubdirs p cs).flatMap fun e =>
                        specFilesL search e.1 e.2) ++
                      q.flatMap fun e => specFilesL search e.1 e.2) :=
                  (List.perm_append_comm).append_left _
              _ = (listFilesMatch search p cs ++
                    ((listSubdirs p cs).flatMap fun e =>
                      specFilesL search e.1 e.2)) ++
                    q.flatMap fun e => specFilesL search e.1 e.2 := by
                  rw [List.append_assoc]
              _ ~ specFilesL search p cs ++
                    q.flatMap fun e => specFilesL search e.1 e.2 :=
                  (specFilesL_perm_step search p cs).symm.append_right _
              _ = ((p, cs) :: q).flatMap fun e => specFilesL search e.1 e.2 := by
                  rw [List.flatMap_cons]
          · calc p :: (iter_files_all search (q ++ listSubdirs p cs)).2
                ~ p :: ((q ++ listSubdirs p cs).flatMap fun e =>
                    e.1 :: specDirsL e.1 e.2) := ihd.cons _
              _ = p :: ((q.flatMap fun e => e.1 :: specDirsL e.1 e.2) ++
                    (listSubdirs p cs).flatMap fun e =>
                      e.1 :: specDirsL e.1 e.2) := by
                  rw [List.flatMap_append]
              _ ~ p :: (((listSubdirs p cs).flatMap fun e =>
                    e.1 :: specDirsL e.1 e.2) ++
                      q.flatMap fun e => e.1 :: specDirsL e.1 e.2) :=
                  (List.perm_append_comm).cons _
              _ ~ p :: (specDirsL p cs ++
                    q.flatMap fun e => e.1 :: specDirsL e.1 e.2) :=
                  ((specDirsL_perm_step p cs).symm.append_right _).cons _
              _ = ((p, cs) :: q).flatMap fun e => e.1 :: specDirsL e.1 e.2 := by
                  rw [List.flatMap_cons, List.cons_append]

open List in
/-- C1: for every directory tree and glob pattern, the AllDirectories
files-only traversal of `iter_files` (materialized by `get_files`) walks
the tree breadth-first with an explicit pending queue and yields exactly
the files of the whole subtree whose basename matches the pattern, each
exactly once (the yielded list is a permutation of the one-occurrence-
per-file specification list); the directories it expands are exactly the
receiver and every descendant directory, independent of the pattern and
of the files-only filter; and with TopDirectoryOnly every yielded entry
is an immediate matching file child of the receiver. -/
theorem iter_files_bfs_correct (search : List Char) (root : FPath)
    (cs : List FSTree) :
    (iter_files_all search [(root, cs)]).1 ~ specFilesL search root cs
    ∧ (iter_files_all search [(root, cs)]).2 ~ root :: specDirsL root cs
    ∧ ∀ x ∈ iter_files_top search root cs,
        ∃ n sz, FSTree.file n sz ∈ cs ∧ globMatch search n.data = true ∧
          x = (root ++ [n], FSTree.file n sz) := by
  obtain ⟨hf, hd⟩ := iter_files_all_perm search [(root, cs)]
  refine ⟨by simpa using hf, by simpa using hd, ?_⟩
  intro x hx
  simp only [iter_files_top, listFilesMatch, List.mem_filterMap] at hx
  obtain ⟨t, ht, hsome⟩ := hx
  cases t with
  | file n sz =>
      by_cases h : globMatch search n.data
      · simp only [h, if_pos] at hsome
        exact ⟨n, sz, ht, h, by simpa using hsome.symm⟩
      · simp [h] at hsome
  | dir n cs => simp at hsome

/-! ### Directory length (`__len__` / `get_directory_length`) -/

/-- `FileInfo.length` (property, fileinfo.py lines 1041-1049) evaluated on
a node yielded by the traversal: `os.path.getsize` of a file is its size.
`iter_files` never yields directories, so the directory branch is
unreachable there. -/
def FileInfo.lengthOf : FSTree → Nat
  | .file _ sz => sz
  | .dir _ _ => 0

/-- `FileInfo.get_directory_length` (fileinfo.py lines 696-705): sum the
`length` of every entry produced by `iter_files(search, option)`; embedded
here with the default `TopDirectoryOnly` option used by `__len__`. -/
def get_directory_length (search : List Char) (root : FPath)
    (cs : List FSTree) : Nat :=
  ((iter_files_top search root cs).map fun e => FileInfo.lengthOf e.2).sum

/-- `FileInfo.__len__` (fileinfo.py lines 92-99): on a directory it calls
`get_directory_length()` with its defaults (`TopDirectoryOnly`, `*`); on a
file it returns `self.length`. -/
def lenFI (root : FPath) : FSTree → Nat
  | .dir _ cs => get_directory_length starPat root cs
  | .file _ sz => sz

/-- C9: a directory's `len` equals the sum of the sizes of its immediate
file children — the default glob `*` filters nothing out, directory
entries contribute nothing, and no recursion into subtrees happens. -/
theorem len_directory_eq_sum_immediate_file_sizes (root : FPath) (n : String)
    (cs : List FSTree) :
    lenFI root (.dir n cs) =
      (cs.filterMap fun t =>
        match t with
        | .file _ sz => some sz
        | .dir _ _ => none).sum := by
  show get_directory_length starPat root cs = _
  induction cs with
  | nil => rfl
  | cons t ts ih =>
      cases t with
      | file m sz =>
          simp only [get_directory_length, iter_files_top, listFilesMatch,
            List.filterMap_cons] at *
          rw [globMatch_star]
          simpa [FileInfo.lengthOf] using ih
      | dir m cs =>
          simp only [get_directory_length, iter_files_top, listFilesMatch,
            List.filterMap_cons] at *
          exact ih

/-! ### Errors (`pyfileinfo/exceptions.py` and Python built-ins)

`typeError` stands for the built-in TypeError raised by Python itself
(for example by `~` on an unsupported operand); `osError` stands for a
plain built-in OSError propagated from an `os` call (for example
`os.rmdir` on a non-empty directory).  Neither of those two is one of the
library's exception classes. -/

inductive FIError where
  | invalidPath
  | notSupported
  | fileNotFound
  | directoryNotFound
  | fileAlreadyExists
  | directoryAlreadyExists
  | unauthorizedAccess
  | typeError
  | osError
deriving DecidableEq, Repr

/-! ### FlagSet algebra (`helpers.py`)

A `FileAttributes` / `SecurityInformation` instance wraps a Python int
(`self.__attribs` / `self.__info`), embedded as `Int` (Python ints are
unbounded two's complement, so `~v = -v-1`, here `Int.not`).  An operator
argument is another instance of the same class, another instance of the
other class, a raw int, or anything else. -/

inductive FAOperand where
  | fa (v : Int)
  | int (n : Int)
  | other
deriving DecidableEq

inductive SIOperand where
  | si (v : Int)
  | int (n : Int)
  | other
deriving DecidableEq

/-- `FileAttributes.__invert__` (helpers.py lines 56-57):
`FileAttributes(~self.value)`. -/
def FileAttributes.invOp (v : Int) : Int := Int.not v

/-- `FileAttributes.__or__` (helpers.py lines 59-65). -/
def FileAttributes.orOp (v : Int) : FAOperand → Except FIError Int
  | .fa w => .ok (Int.lor v w)
  | .int w => .ok (Int.lor v w)
  | .other => .error .notSupported

/-- `FileAttributes.__and__` (helpers.py lines 67-73). -/
def FileAttributes.andOp (v : Int) : FAOperand → Except FIError Int
  | .fa w => .ok (Int.land v w)
  | .int w => .ok (Int.land v w)
  | .other => .error .notSupported

/-- Python `~other` applied to the operand of `__xor__` / `__sub__`: on a
`FileAttributes` it is `FileAttributes.__invert__`, on an int it is the
built-in complement, on anything else the interpreter raises TypeError. -/
def FAOperand.invert : FAOperand → Except FIError FAOperand
  | .fa w => .ok (.fa (Int.not w))
  | .int w => .ok (.int (Int.not w))
  | .other => .error .typeError

/-- `FileAttributes.__xor__` (helpers.py lines 75-76):
`return self & ~ other`. -/
def FileAttributes.xorOp (v : Int) (o : FAOperand) : Except FIError Int :=
  match o.invert with
  | .ok o2 => FileAttributes.andOp v o2
  | .error e => .error e

/-- `FileAttributes.__sub__` (helpers.py lines 81-82):
`return self & ~ other`. -/
def FileAttributes.subOp (v : Int) (o : FAOperand) : Except FIError Int :=
  match o.invert with
  | .ok o2 => FileAttributes.andOp v o2
  | .error e => .error e

/-- `SecurityInformation.__invert__` (helpers.py lines 155-156). -/
def SecurityInformation.invOp (v : Int) : Int := Int.not v

/-- `SecurityInformation.__or__` (helpers.py lines 158-164). -/
def SecurityInformation.orOp (v : Int) : SIOperand → Except FIError Int
  | .si w => .ok (Int.lor v w)
  | .int w => .ok (Int.lor v w)
  | .other => .error .notSupported

/-- `SecurityInformation.__and__` (helpers.py lines 166-172). -/
def SecurityInformation.andOp (v : Int) : SIOperand → Except FIError Int
  | .si w => .ok (Int.land v w)
  | .int w => .ok (Int.land v w)
  | .other => .error .notSupported

/-- Python `~other` on the operand of `SecurityInformation.__xor__`. -/
def SIOperand.invert : SIOperand → Except FIError SIOperand
  | .si w => .ok (.si (Int.not w))
  | .int w => .ok (.int (Int.not w))
  | .other => .error .typeError

/-- `SecurityInformation.__xor__` (helpers.py lines 174-175):
`return self & ~ other`. -/
def SecurityInformation.xorOp (v : Int) (o : SIOperand) : Except FIError Int :=
  match o.invert with
  | .ok o2 => SecurityInformation.andOp v o2
  | .error e => .error e

/-- C2 counterexample: at `a.value = 1`, `b.value = 3` the code computes
`(a ^ b).value = 1 & ~3 = 0`, while the bitwise exclusive-or of the
underlying values is `1 XOR 3 = 2`, so `__xor__` is not exclusive-or. -/
theorem xorOp_not_bitwise_xor_cex :
    FileAttributes.xorOp 1 (.fa 3) = .ok 0 ∧ Int.xor 1 3 = 2 ∧ (0 : Int) ≠ 2 := by
  have h : Int.land 1 (Int.not 3) = 0 := by
    show Int.ofNat (Nat.ldiff 1 3) = 0
    norm_num [Nat.ldiff, Nat.bitwise]
  refine ⟨?_, ?_, by decide⟩
  · show FileAttributes.andOp 1 (.fa (Int.not 3)) = .ok 0
    show Except.ok (Int.land 1 (Int.not 3)) = .ok 0
    rw [h]
  · show Int.ofNat (Nat.xor 1 3) = 2
    decide

/-- C2 amended: for both domains, and for both a same-domain operand and
a raw integer operand, `a ^ b` computes the and-not of the underlying
values — `(a ^ b).value = a.value AND (NOT b.value)` — exactly the same
operation as `a - b`, not the bitwise exclusive-or. -/
theorem xorOp_is_and_not (a b : Int) :
    FileAttributes.xorOp a (.fa b) = .ok (Int.land a (Int.not b))
    ∧ FileAttributes.xorOp a (.int b) = .ok (Int.land a (Int.not b))
    ∧ FileAttributes.xorOp a (.fa b) = FileAttributes.subOp a (.fa b)
    ∧ SecurityInformation.xorOp a (.si b) = .ok (Int.land a (Int.not b))
    ∧ SecurityInformation.xorOp a (.int b) = .ok (Int.land a (Int.not b)) :=
  ⟨rfl, rfl, rfl, rfl, rfl⟩

/-- C8: in both flag domains, `or` is commutative, `and` is idempotent
and double complement is the identity (Python ints are exact two's
complement, so this holds outright, in particular within the domain's bit
width). -/
theorem flagset_algebra (a b : Int) :
    FileAttributes.orOp a (.fa b) = FileAttributes.orOp b (.fa a)
    ∧ FileAttributes.andOp a (.fa a) = .ok a
    ∧ FileAttributes.invOp (FileAttributes.invOp a) = a
    ∧ SecurityInformation.orOp a (.si b) = SecurityInformation.orOp b (.si a)
    ∧ SecurityInformation.andOp a (.si a) = .ok a
    ∧ SecurityInformation.invOp (SecurityInformation.invOp a) = a := by
  have hor : Int.lor a b = Int.lor b a := by
    cases a <;> cases b <;> simp [Int.lor, Nat.lor_comm, Nat.land_comm]
  have hand : Int.land a a = a := by
    cases a <;> simp [Int.land, Nat.and_self, Nat.or_self]
  have hnot : Int.not (Int.not a) = a := by cases a <;> rfl
  exact ⟨by simp [FileAttributes.orOp, hor], by simp [FileAttributes.andOp, hand],
    hnot, by simp [SecurityInformation.orOp, hor],
    by simp [SecurityInformation.andOp, hand], hnot⟩

/-! ### Symbolic rendering (`__repr__`, helpers.py lines 84-116, 183-209) -/

/-- The registered flags of `FileAttributes`, in the order `__repr__`
tests them (helpers.py lines 29-43). -/
def FileAttributes.flagBits : List (String × Int) :=
  [("ReadOnly", 0x1), ("Hidden", 0x2), ("System", 0x4), ("Directory", 0x10),
   ("Archive", 0x20), ("Device", 0x40), ("Normal", 0x80),
   ("Temporary", 0x100), ("SparseFile", 0x200), ("ReparsePoint", 0x400),
   ("Compressed", 0x800), ("Offline", 0x1000), ("NotContentIndexed", 0x2000),
   ("Encrypted", 0x4000), ("Virtual", 0x10000)]

/-- The registered flags of `SecurityInformation`, in the order `__repr__`
tests them (helpers.py lines 131-142). -/
def SecurityInformation.flagBits : List (String × Int) :=
  [("Owner", 0x1), ("Group", 0x2), ("Dacl", 0x4), ("Sacl", 0x8),
   ("Label", 0x10), ("Attribute", 0x20), ("Scope", 0x40),
   ("Backup", 0x10000), ("UnprotectedSacl", 0x10000000),
   ("UnprotectedDacl", 0x20000000), ("ProtectedSacl", 0x40000000),
   ("ProtectedDacl", 0x80000000)]

/-- The `ret` list built by `__repr__`: for each registered flag in
declaration order, if `value & bit` is truthy (non-zero) append the
qualified flag name. -/
def flagNames (pre : String) (v : Int) (fl : List (String × Int)) :
    List String :=
  fl.filterMap fun fb =>
    if Int.land v fb.2 = 0 then none else some (pre ++ fb.1)

/-- `FileAttributes.__repr__`: `" | ".join(ret)` — in particular it
returns the joined string unconditionally, there is no raise statement in
the method. -/
def FileAttributes.reprStr (v : Int) : String :=
  String.intercalate " | " (flagNames "FileAttributes." v FileAttributes.flagBits)

/-- `SecurityInformation.__repr__`: `" | ".join(ret)`. -/
def SecurityInformation.reprStr (v : Int) : String :=
  String.intercalate " | "
    (flagNames "SecurityInformation." v SecurityInformation.flagBits)

/-- C5 counterexample: on the value 0 (no registered bit set) both
renderings return the empty string; no error of any kind is raised (the
embedded `__repr__` is a total, string-valued function). -/
theorem reprStr_zero_cex :
    FileAttributes.reprStr 0 = "" ∧ SecurityInformation.reprStr 0 = "" := by
  constructor <;> decide

theorem flagNames_all_unset (pre : String) (v : Int)
    (fl : List (String × Int))
    (h : (fl.all fun p => Int.land v p.2 == 0) = true) :
    flagNames pre v fl = [] := by
  induction fl with
  | nil => rfl
  | cons p ps ih =>
      simp only [List.all_cons, Bool.and_eq_true, beq_iff_eq] at h
      simp only [flagNames, List.filterMap_cons, h.1, if_pos]
      exact ih h.2

/-- C5 amended: for every value in which no registered bit of the domain
is set (zero, or only unregistered bits), `__repr__` returns the empty
string instead of raising an `UnsupportedOperation` error. -/
theorem reprStr_no_match_empty (v w : Int)
    (h1 : (FileAttributes.flagBits.all fun p => Int.land v p.2 == 0) = true)
    (h2 : (SecurityInformation.flagBits.all fun p => Int.land w p.2 == 0) = true) :
    FileAttributes.reprStr v = "" ∧ SecurityInformation.reprStr w = "" := by
  rw [FileAttributes.reprStr, SecurityInformation.reprStr,
    flagNames_all_unset _ _ _ h1, flagNames_all_unset _ _ _ h2]
  exact ⟨rfl, rfl⟩

/-- C5 witness: the value 8 sets no registered `FileAttributes` bit and
the value 256 sets no registered `SecurityInformation` bit; the rendering
of both is the empty string. -/
theorem reprStr_no_match_empty_witness :
    FileAttributes.reprStr 8 = "" ∧ SecurityInformation.reprStr 256 = "" :=
  reprStr_no_match_empty 8 256 (by decide) (by decide)

/-! ### Equality comparison on the flag classes

Neither `FileAttributes` nor `SecurityInformation` defines `__eq__` (or
`__ne__`, or an `equals` method) anywhere in helpers.py lines 25-116 and
127-209, so Python falls back to `object.__eq__`: reference identity.
An instance is therefore modelled as its bitmask together with an object
identity (each constructor call produces a fresh identity). -/

structure FAObject where
  objId : Nat
  value : Int
deriving DecidableEq

structure SIObject where
  objId : Nat
  value : Int
deriving DecidableEq

/-- The right operand of `==`. -/
inductive PyComparand where
  | fa (o : FAObject)
  | si (o : SIObject)
  | intVal (n : Int)
  | otherVal
deriving DecidableEq

/-- `a == c` for a `FileAttributes` instance `a`: default object
identity, since the class defines no `__eq__`.  Python returns `False`
(never raises) when both sides' `__eq__` return `NotImplemented`. -/
def FileAttributes.eqPy (a : FAObject) : PyComparand → Bool
  | .fa o => a.objId == o.objId
  | _ => false

/-- `a == c` for a `SecurityInformation` instance `a`. -/
def SecurityInformation.eqPy (a : SIObject) : PyComparand → Bool
  | .si o => a.objId == o.objId
  | _ => false

/-- C6 counterexample: a `FileAttributes` instance with value 5 compared
against the raw integer 5 yields `False` although the underlying bitmask
equals the integer; two distinct instances with equal value 5 also
compare unequal.  So `==` is not value equality. -/
theorem eqPy_not_value_equality_cex :
    FileAttributes.eqPy ⟨0, 5⟩ (.intVal 5) = false
    ∧ FileAttributes.eqPy ⟨0, 5⟩ (.fa ⟨1, 5⟩) = false
    ∧ (5 : Int) = 5 := by
  exact ⟨rfl, by decide, rfl⟩

/-- C6 amended: `==` on the flag classes is reference identity: it is
`true` exactly when the comparand is an instance of the same domain that
is the very same object (and never consults the bitmask values); for a
raw integer or any other comparand it returns `false`; no comparand kind
raises an error. -/
theorem eqPy_is_identity (a : FAObject) (b : SIObject) (c : PyComparand) :
    (FileAttributes.eqPy a c = true ↔
      ∃ o, c = PyComparand.fa o ∧ a.objId = o.objId)
    ∧ (SecurityInformation.eqPy b c = true ↔
      ∃ o, c = PyComparand.si o ∧ b.objId = o.objId) := by
  constructor
  · cases c with
    | fa o =>
        simp [FileAttributes.eqPy]
    | si o => simp [FileAttributes.eqPy]
    | intVal n => simp [FileAttributes.eqPy]
    | otherVal => simp [FileAttributes.eqPy]
  · cases c with
    | fa o => simp [SecurityInformation.eqPy]
    | si o =>
        simp [SecurityInformation.eqPy]
    | intVal n => simp [SecurityInformation.eqPy]
    | otherVal => simp [SecurityInformation.eqPy]

/-! ### Path validation (`FileInfo.__is_valid_path`, fileinfo.py
lines 63-70, and `FileInfo.__init__`, lines 50-60) -/

/-- The loop `for c in '*?"<>|'`. -/
def forbiddenChars : List Char := ['*', '?', '"', '<', '>', '|']

/-- `str.rindex`: the index of the last occurrence of `c`, when any. -/
def lastIdxOf (c : Char) : List Char → Option Nat
  | [] => none
  | a :: rest =>
      match lastIdxOf c rest with
      | some i => some (i + 1)
      | none => if a == c then some 0 else none

/-- `FileInfo.__is_valid_path(path)`: no forbidden character, and if a
colon occurs then `path.rindex(":") == 1`, and the string is non-empty
(`bool(path)`). -/
def is_valid_path (s : List Char) : Bool :=
  (!s.any fun c => forbiddenChars.contains c) &&
    (match lastIdxOf ':' s with
     | none => true
     | some i => i == 1) &&
    !s.isEmpty

/-- `FileInfo.__init__` on a string argument: store the path verbatim
when `__is_valid_path` accepts it, otherwise raise
`InvalidPathException`. -/
def FileInfo.construct (s : List Char) : Except FIError (List Char) :=
  if is_valid_path s then .ok s else .error .invalidPath

theorem lastIdxOf_eq_none_iff (c : Char) (s : List Char) :
    lastIdxOf c s = none ↔ c ∉ s := by
  induction s with
  | nil => simp [lastIdxOf]
  | cons a rest ih =>
      rw [lastIdxOf]
      cases h : lastIdxOf c rest with
      | some i => simp [ih.symm, h]
      | none =>
          by_cases hac : a == c
          · simp only [hac, if_pos]
            simp only [beq_iff_eq] at hac
            simp [hac]
          · simp only [hac, if_neg, Bool.false_eq_true, not_false_iff]
            simp only [beq_iff_eq] at hac
            have hc : c ∉ rest := ih.mp h
            simp [List.mem_cons, hc]
            exact fun he => hac he.symm

theorem lastIdxOf_spec (c : Char) (s : List Char) (i : Nat)
    (h : lastIdxOf c s = some i) :
    s[i]? = some c ∧ ∀ j, i < j → s[j]? ≠ some c := by
  induction s generalizing i with
  | nil => simp [lastIdxOf] at h
  | cons a rest ih =>
      rw [lastIdxOf] at h
      cases hr : lastIdxOf c rest with
      | some i0 =>
          rw [hr] at h
          simp only [Option.some.injEq] at h
          subst h
          obtain ⟨h1, h2⟩ := ih i0 hr
          refine ⟨by simpa [List.getElem?_cons_succ] using h1, ?_⟩
          intro j hj
          obtain ⟨j0, rfl⟩ : ∃ j0, j = j0 + 1 := ⟨j - 1, by omega⟩
          rw [List.getElem?_cons_succ]
          exact h2 j0 (by omega)
      | none =>
          rw [hr] at h
          by_cases hac : a == c
          · rw [if_pos hac] at h
            simp only [Option.some.injEq] at h
            subst h
            simp only [beq_iff_eq] at hac
            subst hac
            refine ⟨by simp, ?_⟩
            intro j hj
            obtain ⟨j0, rfl⟩ : ∃ j0, j = j0 + 1 := ⟨j - 1, by omega⟩
            rw [List.getElem?_cons_succ]
            have hc : a ∉ rest := (lastIdxOf_eq_none_iff a rest).mp hr
            intro hmem
            exact hc (List.getElem?_mem hmem)
          · rw [if_neg hac] at h
            exact absurd h (by simp)

theorem colon_check_iff (s : List Char) :
    ((match lastIdxOf ':' s with
      | none => true
      | some i => i == 1) = true) ↔
      (':' ∉ s ∨ (s[1]? = some ':' ∧ ∀ i, 2 ≤ i → s[i]? ≠ some ':')) := by
  cases h : lastIdxOf ':' s with
  | none => simp [(lastIdxOf_eq_none_iff ':' s).mp h]
  | some i =>
      simp only [beq_iff_eq]
      constructor
      · intro hi
        subst hi
        obtain ⟨h1, h2⟩ := lastIdxOf_spec ':' s 1 h
        exact Or.inr ⟨h1, fun j hj => h2 j (by omega)⟩
      · rintro (hno | ⟨h1, h2⟩)
        · exact absurd ((lastIdxOf_eq_none_iff ':' s).mpr hno) (by simp [h])
        · obtain ⟨hs, hmax⟩ := lastIdxOf_spec ':' s i h
          by_contra hne
          rcases Nat.lt_or_ge i 1 with hlt | hge
          · interval_cases i
            exact hmax 1 (by omega) h1
          · have : 2 ≤ i := by omega
            exact h2 i this hs

theorem is_valid_path_iff (s : List Char) :
    is_valid_path s = true ↔
      s ≠ [] ∧ (∀ c ∈ s, c ∉ forbiddenChars) ∧
        (':' ∉ s ∨ (s[1]? = some ':' ∧ ∀ i, 2 ≤ i → s[i]? ≠ some ':')) := by
  rw [is_valid_path]
  simp only [Bool.and_eq_true, Bool.not_eq_true', List.any_eq_false,
    List.isEmpty_eq_false, colon_check_iff]
  constructor
  · rintro ⟨⟨h1, h2⟩, h3⟩
    refine ⟨h3, fun c hc => ?_, h2⟩
    have := h1 c hc
    simpa [List.contains_iff_exists_mem_beq] using this
  · rintro ⟨h1, h2, h3⟩
    refine ⟨⟨fun c hc => ?_, h3⟩, h1⟩
    simpa [List.contains_iff_exists_mem_beq] using h2 c hc

/-- C3 counterexample: the string `::` contains a colon at index 0 — an
index other than 1 — yet construction accepts it and stores it verbatim,
because `__is_valid_path` only checks the index of the last colon
(`path.rindex`), which here is 1. -/
theorem construct_colon_cex :
    [':', ':'][0]? = some ':' ∧ (0 : Nat) ≠ 1
    ∧ FileInfo.construct [':', ':'] = .ok [':', ':'] := by
  refine ⟨rfl, by decide, ?_⟩
  rw [FileInfo.construct, if_pos (by decide)]

/-- C3 amended: construction accepts a string verbatim exactly when it is
non-empty, contains none of the characters from the set
star / question mark / double quote / less-than / greater-than / bar, and
either contains no colon or its LAST colon sits at index 1 (so a string
such as `::`, whose colons occupy indices 0 and 1, is accepted even
though it has a colon away from index 1); every other string is rejected
with `InvalidPath`. -/
theorem construct_iff (s : List Char) :
    (FileInfo.construct s = .ok s ↔
      s ≠ [] ∧ (∀ c ∈ s, c ∉ forbiddenChars) ∧
        (':' ∉ s ∨ (s[1]? = some ':' ∧ ∀ i, 2 ≤ i → s[i]? ≠ some ':')))
    ∧ (FileInfo.construct s = .ok s
        ∨ FileInfo.construct s = .error FIError.invalidPath) := by
  rw [FileInfo.construct]
  by_cases hv : is_valid_path s
  · simp only [hv, if_pos]
    exact ⟨by simpa using (is_valid_path_iff s).mp hv, by simp⟩
  · simp only [hv, Bool.false_eq_true, if_neg, not_false_iff]
    constructor
    · constructor
      · intro h
        exact absurd h (by simp)
      · intro h
        exact absurd ((is_valid_path_iff s).mpr h) (by simp [hv])
    · simp

/-! ### The flat filesystem acted on by `delete` / `move_to` / `rename`

A state is a finite table from component paths to entries.  `os.path`
predicates become lookups; `os.remove` / `os.rmdir` delete a row
(`os.rmdir` raises a plain OSError when the directory still has
children); `shutil.move` to an absent destination re-roots every path
under the source.  Errors leave the state untouched: an `Except.error`
result carries no new state, so the caller keeps the old one. -/

inductive FSEntry where
  | file (size : Nat)
  | dir
deriving DecidableEq, Repr

structure FSState where
  entries : List (FPath × FSEntry)
deriving DecidableEq

/-- `os.path.exists`. -/
def FSState.existsAt (fs : FSState) (p : FPath) : Bool :=
  fs.entries.any fun e => e.1 == p

/-- `os.path.isfile`. -/
def FSState.isFileAt (fs : FSState) (p : FPath) : Bool :=
  fs.entries.any fun e =>
    e.1 == p && (match e.2 with | .file _ => true | .dir => false)

/-- `os.path.isdir`. -/
def FSState.isDirAt (fs : FSState) (p : FPath) : Bool :=
  fs.entries.any fun e =>
    e.1 == p && (match e.2 with | .dir => true | .file _ => false)

/-- Whether the directory `p` still contains anything (what `os.rmdir`
checks before removing). -/
def FSState.hasChild (fs : FSState) (p : FPath) : Bool :=
  fs.entries.any fun e => p.isPrefixOf e.1 && decide (p.length < e.1.length)

/-- `os.remove` / `os.rmdir` on success: drop the row of `p`. -/
def FSState.removeAt (fs : FSState) (p : FPath) : FSState :=
  ⟨fs.entries.filter fun e => !(e.1 == p)⟩

/-- Well-formedness of a filesystem snapshot: every proper ancestor of an
existing path exists and is a directory (true of any real directory
tree). -/
def FSState.wf (fs : FSState) : Bool :=
  fs.entries.all fun e =>
    (List.range e.1.length).all fun i => i == 0 || fs.isDirAt (e.1.take i)

/-- `FileInfo.delete` (fileinfo.py lines 188-201): on an existing file,
`os.remove`; on an existing directory, `os.rmdir` — which removes an
empty directory and raises a plain OSError (not one of the library's
exceptions) when the directory is non-empty; on an existing entry that is
neither, `NotSupportedException`; on a missing entry,
`DirectoryNotFoundException`. -/
def delete (fs : FSState) (p : FPath) : Except FIError FSState :=
  if fs.existsAt p then
    if fs.isFileAt p then .ok (fs.removeAt p)
    else if fs.isDirAt p then
      if fs.hasChild p then .error .osError
      else .ok (fs.removeAt p)
    else .error .notSupported
  else .error .directoryNotFound

/-- The path string handed to `__is_valid_path` for a component path. -/
def renderPath (p : FPath) : String :=
  String.intercalate "/" p

/-- The effect of a successful relocation on one table row: the row of
`src` moves to `dst` and every row below `src` is re-rooted below `dst`. -/
def replacePath (src dst q : FPath) : FPath :=
  if src.isPrefixOf q then dst ++ q.drop src.length else q

/-- Whether `dst` lies strictly inside the subtree at `src`
(`shutil._destinsrc`). -/
def strictUnder (src dst : FPath) : Bool :=
  src.isPrefixOf dst && decide (src.length < dst.length)

/-- The directory rows created by `os.makedirs(dst)` inside
`shutil.copytree`: every proper non-empty prefix of `dst` that does not
exist yet (`dst` itself receives the relocated source row). -/
def createdParents (fs : FSState) (dst : FPath) : List (FPath × FSEntry) :=
  (List.range dst.length).filterMap fun i =>
    if i = 0 then none
    else if fs.existsAt (dst.take i) then none
    else some (dst.take i, FSEntry.dir)

/-- `shutil.move(src, dst)` for an existing `src` and absent `dst`.
`shutil.move` first tries `os.rename(src, dst)`: it succeeds when the
destination's parent is an existing directory (or `dst` is top-level)
and `dst` is not inside `src` (the cross-device `EXDEV` fallback has the
same net effect).  On an `OSError` from the rename, if `src` is a
directory: moving it into itself raises `shutil.Error`, otherwise
`copytree` + `rmtree` relocate it, with `os.makedirs` creating the
missing destination parents; if `src` is not a directory, `copy2` into
the missing or non-directory parent fails (`FileNotFoundError` /
`NotADirectoryError`), so the error propagates and nothing moves. -/
def shutil_move (fs : FSState) (src dst : FPath) : Except FIError FSState :=
  if (dst.dropLast.isEmpty || fs.isDirAt dst.dropLast) && !strictUnder src dst then
    .ok ⟨fs.entries.map fun e => (replacePath src dst e.1, e.2)⟩
  else if fs.isDirAt src then
    if strictUnder src dst then .error .osError
    else .ok ⟨createdParents fs dst ++
      (fs.entries.map fun e => (replacePath src dst e.1, e.2))⟩
  else .error .osError

/-- `FileInfo.move_to` (fileinfo.py lines 335-350): require the source to
exist and the destination string to be valid; if the destination does not
exist, `os.rename(orig, orig)` (a no-op on an existing path), then
`shutil.move(orig, location)` — whose failures propagate — and on its
success `self.__path = location`: the first component of the result is
the new stored path; if the destination exists,
`DirectoryAlreadyExistsException`. -/
def move_to (fs : FSState) (self loc : FPath) : Except FIError (FPath × FSState) :=
  if fs.existsAt self then
    if !is_valid_path (renderPath loc).data then .error .invalidPath
    else if !fs.existsAt loc then
      match shutil_move fs self loc with
      | .ok fs2 => .ok (loc, fs2)
      | .error e => .error e
    else .error .directoryAlreadyExists
  else .error .directoryNotFound

/-- `FileInfo.name`: the basename of the canonical path — for a
normalized component path, its last component. -/
def FileInfo.basename (p : FPath) : String :=
  p.getLastD ""

/-- `FileInfo.rename` (fileinfo.py lines 774-784): if the new name equals
`self.name`, return immediately (before any filesystem access); if the
new name is not a bare basename (it contains a separator),
`NotSupportedException`; otherwise `move_to` inside the same parent
directory. -/
def rename (fs : FSState) (self : FPath) (nm : String) :
    Except FIError (FPath × FSState) :=
  if nm == FileInfo.basename self then .ok (self, fs)
  else if nm.data.contains '/' then .error .notSupported
  else move_to fs self (self.dropLast ++ [nm])

/-- C4 counterexample: deleting the existing non-empty directory `d`
(it contains the file `d/f`) propagates the plain OSError raised by
`os.rmdir`; it does not raise the library's `NotSupportedException`
(that branch is reserved for an existing entry that is neither file nor
directory).  No new state is produced, so the directory remains. -/
theorem delete_nonempty_dir_cex :
    delete ⟨[(["d"], FSEntry.dir), (["d", "f"], FSEntry.file 1)]⟩ ["d"]
        = .error FIError.osError
    ∧ FIError.osError ≠ FIError.notSupported :=
  ⟨rfl, by decide⟩

/-- C4 amended: `delete()` removes an existing file, removes an existing
empty directory, and on an existing non-empty directory fails with the
plain propagated OSError of `os.rmdir` — not with the library's
`NotSupported` error — leaving the directory in place (an error result
carries no state change). -/
theorem delete_spec (fs : FSState) (p : FPath) :
    (fs.isDirAt p = true → fs.hasChild p = true → fs.isFileAt p = false →
      delete fs p = .error FIError.osError
      ∧ delete fs p ≠ .error FIError.notSupported)
    ∧ (fs.isFileAt p = true → delete fs p = .ok (fs.removeAt p))
    ∧ (fs.isDirAt p = true → fs.isFileAt p = false → fs.hasChild p = false →
      delete fs p = .ok (fs.removeAt p)) := by
  have hexf : fs.isFileAt p = true → fs.existsAt p = true := by
    intro h
    simp only [FSState.isFileAt, List.any_eq_true, Bool.and_eq_true] at h
    obtain ⟨e, he, h1, _⟩ := h
    simp only [FSState.existsAt, List.any_eq_true]
    exact ⟨e, he, h1⟩
  have hexd : fs.isDirAt p = true → fs.existsAt p = true := by
    intro h
    simp only [FSState.isDirAt, List.any_eq_true, Bool.and_eq_true] at h
    obtain ⟨e, he, h1, _⟩ := h
    simp only [FSState.existsAt, List.any_eq_true]
    exact ⟨e, he, h1⟩
  refine ⟨fun hd hch hnf => ?_, fun hf => ?_, fun hd hnf hch => ?_⟩
  · rw [delete, if_pos (hexd hd), if_neg (by simp [hnf]), if_pos hd, if_pos hch]
    exact ⟨rfl, by simp⟩
  · rw [delete, if_pos (hexf hf), if_pos hf]
  · rw [delete, if_pos (hexd hd), if_neg (by simp [hnf]), if_pos hd,
      if_neg (by simp [hch])]

/-- C4 witness: in the two-entry state of the counterexample, deleting
the non-empty directory `d` yields the OSError, and deleting the file
`d/f` succeeds and drops its row. -/
theorem delete_spec_witness :
    delete ⟨[(["d"], FSEntry.dir), (["d", "f"], FSEntry.file 1)]⟩ ["d"]
        = .error FIError.osError
    ∧ delete ⟨[(["d"], FSEntry.dir), (["d", "f"], FSEntry.file 1)]⟩ ["d", "f"]
        = .ok ⟨[(["d"], FSEntry.dir)]⟩ :=
  ⟨((delete_spec ⟨[(["d"], FSEntry.dir), (["d", "f"], FSEntry.file 1)]⟩
      ["d"]).1 (by decide) (by decide) (by decide)).1,
    by
      have h := (delete_spec ⟨[(["d"], FSEntry.dir),
        (["d", "f"], FSEntry.file 1)]⟩ ["d", "f"]).2.1 (by decide)
      rw [h]
      rfl⟩

/-- C10: `rename(name)` first compares `name` with the entry's current
basename and returns immediately when they are equal: the stored path and
the filesystem come back unchanged, no error is raised, and no existence
check happens first (the result does not depend on whether the entry
exists on disk). -/
theorem rename_same_name_noop (fs : FSState) (self : FPath) (nm : String)
    (h : nm = FileInfo.basename self) :
    rename fs self nm = .ok (self, fs) := by
  rw [rename, if_pos (by simp [h])]

/-- C10 witness: on an empty filesystem, where `x/y` does not exist,
renaming it to its own basename `y` is still the accepting no-op. -/
theorem rename_same_name_noop_witness :
    FSState.existsAt ⟨[]⟩ ["x", "y"] = false
    ∧ rename ⟨[]⟩ ["x", "y"] "y" = .ok (["x", "y"], ⟨[]⟩) :=
  ⟨by decide, rename_same_name_noop ⟨[]⟩ ["x", "y"] "y" rfl⟩

theorem existsAt_iff (fs : FSState) (p : FPath) :
    fs.existsAt p = true ↔ ∃ e ∈ fs.entries, e.1 = p := by
  simp only [FSState.existsAt, List.any_eq_true, beq_iff_eq]

theorem isDirAt_existsAt (fs : FSState) (p : FPath)
    (h : fs.isDirAt p = true) : fs.existsAt p = true := by
  simp only [FSState.isDirAt, List.any_eq_true, Bool.and_eq_true] at h
  obtain ⟨e, he, h1, _⟩ := h
  simp only [FSState.existsAt, List.any_eq_true]
  exact ⟨e, he, h1⟩

theorem wf_ancestor (fs : FSState) (hwf : fs.wf = true) (e : FPath × FSEntry)
    (he : e ∈ fs.entries) (i : Nat) (h0 : i ≠ 0) (hlen : i < e.1.length) :
    fs.existsAt (e.1.take i) = true := by
  simp only [FSState.wf, List.all_eq_true] at hwf
  have h := hwf e he
  have h2 := h i (by simpa [List.mem_range] using hlen)
  have h3 : fs.isDirAt (e.1.take i) = true := by simpa [h0] using h2
  exact isDirAt_existsAt fs _ h3

theorem valid_path_ne_nil (loc : FPath)
    (hval : is_valid_path (renderPath loc).data = true) : loc ≠ [] := by
  intro h
  subst h
  exact absurd hval (by decide)

/-- C7 counterexample: the source file `a` exists, the destination
`x/y` is a character-wise valid path and does not exist — every
precondition of the claim holds — yet `move_to` does not relocate
anything: the parent directory `x` of the destination is missing, so
`os.rename` fails with ENOENT and the `copy2` fallback of `shutil.move`
raises FileNotFoundError, which propagates; no success value carrying an
updated stored path is produced. -/
theorem move_to_missing_parent_cex :
    FSState.existsAt ⟨[(["a"], FSEntry.file 3)]⟩ ["a"] = true
    ∧ is_valid_path (renderPath ["x", "y"]).data = true
    ∧ FSState.existsAt ⟨[(["a"], FSEntry.file 3)]⟩ ["x", "y"] = false
    ∧ move_to ⟨[(["a"], FSEntry.file 3)]⟩ ["a"] ["x", "y"]
        = .error FIError.osError :=
  ⟨by decide, by decide, by decide, rfl⟩

/-- C7 amended: for an existing source, a character-wise valid
destination path whose parent directory exists (or which is top-level)
and which does not lie strictly inside the source subtree, on a
well-formed filesystem snapshot — if the destination is absent,
`move_to` succeeds, the entry's stored path becomes the destination, the
old path no longer exists and the new one does; if the destination is
present, `move_to` fails with `DirectoryAlreadyExists` (an error result
carries no state change, so everything is left unchanged).  Without the
two added preconditions `shutil.move` can fail — FileNotFoundError for a
file source with a missing destination parent, `shutil.Error` for a
directory moved into itself — and that error propagates with nothing
relocated. -/
theorem move_to_spec (fs : FSState) (self loc : FPath)
    (hwf : fs.wf = true)
    (hex : fs.existsAt self = true)
    (hval : is_valid_path (renderPath loc).data = true)
    (hpar : (loc.dropLast.isEmpty || fs.isDirAt loc.dropLast) = true)
    (hnin : strictUnder self loc = false) :
    (fs.existsAt loc = false →
      ∃ fs2, move_to fs self loc = .ok (loc, fs2)
        ∧ fs2.existsAt self = false
        ∧ fs2.existsAt loc = true)
    ∧ (fs.existsAt loc = true →
      move_to fs self loc = .error FIError.directoryAlreadyExists) := by
  constructor
  · intro hloc
    rw [move_to, if_pos hex, if_neg (by simp [hval]), if_pos (by simp [hloc]),
      shutil_move, if_pos (by simp [hpar, hnin])]
    refine ⟨_, rfl, ?_, ?_⟩
    · -- after the move nothing is left at the old path
      rw [Bool.eq_false_iff]
      intro hcontra
      obtain ⟨e2, he2, hk⟩ := (existsAt_iff _ _).mp hcontra
      simp only [List.mem_map] at he2
      obtain ⟨e, he, rfl⟩ := he2
      simp only [replacePath] at hk
      by_cases hp : self.isPrefixOf e.1
      · rw [if_pos hp] at hk
        have hpre : self <+: e.1 := List.isPrefixOf_iff_prefix.mp hp
        rcases Nat.eq_or_lt_of_le hpre.length_le with heq | hlt
        · -- the row of the source itself moves to the destination
          have : self = e.1 := hpre.eq_of_length heq
          rw [← this, List.drop_length, List.append_nil] at hk
          have hsl : self ≠ loc := by
            intro h
            rw [← h] at hloc
            rw [hex] at hloc
            exact Bool.noConfusion hloc
          exact hsl hk.symm
        · -- a strictly deeper row would have to collapse onto the source,
          -- forcing the destination to be a live ancestor of the source
          have hrest : (e.1.drop self.length).length ≠ 0 := by
            rw [List.length_drop]
            omega
          have hlocpre : self.take loc.length = loc := by
            rw [← hk, List.take_left]
          have hloclt : loc.length < self.length := by
            have := congrArg List.length hk
            simp only [List.length_append] at this
            omega
          have hln : loc.length ≠ 0 := by
            have := valid_path_ne_nil loc hval
            intro h
            exact this (List.eq_nil_of_length_eq_zero h)
          obtain ⟨es, hes, hks⟩ := (existsAt_iff _ _).mp hex
          have := wf_ancestor fs hwf es hes loc.length hln (by rw [hks]; exact hloclt)
          rw [hks, hlocpre, hloc] at this
          exact Bool.noConfusion this
      · rw [if_neg hp] at hk
        rw [hk] at hp
        exact hp (List.isPrefixOf_iff_prefix.mpr (List.prefix_refl self))
    · -- the destination path now exists: the source row landed there
      obtain ⟨e, he, hk⟩ := (existsAt_iff _ _).mp hex
      refine (existsAt_iff _ _).mpr ⟨(replacePath self loc e.1, e.2), List.mem_map_of_mem _ he, ?_⟩
      rw [hk, replacePath,
        if_pos (List.isPrefixOf_iff_prefix.mpr (List.prefix_refl self)),
        List.drop_length, List.append_nil]
  · intro hloc
    rw [move_to, if_pos hex, if_neg (by simp [hval]), if_neg (by simp [hloc])]

/-- C7 witness: moving the lone file `a` of a one-row filesystem to the
absent top-level destination `b` (parent present, not inside the source)
succeeds, `a` is gone and `b` exists; in the same state, moving `a` onto
itself (an existing destination) fails with `DirectoryAlreadyExists`. -/
theorem move_to_spec_witness :
    (∃ fs2, move_to ⟨[(["a"], FSEntry.file 3)]⟩ ["a"] ["b"] = .ok (["b"], fs2)
      ∧ fs2.existsAt ["a"] = false ∧ fs2.existsAt ["b"] = true)
    ∧ move_to ⟨[(["a"], FSEntry.file 3)]⟩ ["a"] ["a"]
        = .error FIError.directoryAlreadyExists :=
  ⟨(move_to_spec ⟨[(["a"], FSEntry.file 3)]⟩ ["a"] ["b"] (by decide) (by decide)
      (by decide) (by decide) (by decide)).1 (by decide),
    (move_to_spec ⟨[(["a"], FSEntry.file 3)]⟩ ["a"] ["a"] (by decide) (by decide)
      (by decide) (by decide) (by decide)).2 (by decide)⟩
